import Mathlib

/-!
Verification of the bucket compaction engine of `pkg/compact/compact.go`.

The Go source is shallowly embedded: pure data (metas, groups, errors) becomes
plain Lean structures, and the effectful operations (planner, bucket downloads
and uploads, deletion-marker writes) become explicit oracles in an environment
record, with the bucket effects of a call collected in an explicit trace.
External collaborators (metadata fetcher, object bucket, low-level compactor,
planner, index health checker) are exactly the oracles; the control flow around
them is translated from the source.  Concurrency is sequentialised: within one
group the source already holds the group mutex for the whole compaction, and the
download fan-out is order-independent, so the model runs it in plan order.
Metrics counters, tracing spans, logging and local-filesystem bookkeeping
(work directories, tombstone removal) are elided: they do not affect results,
bucket effects, or the block/group state this development reasons about.
-/

namespace ThanosCompact

/-- Block identifier (`ulid.ULID`): a 128-bit lexicographically ordered id.
The model only needs a totally ordered id type with a decidable order, so ids
are represented by `Nat`; `ULID.Compare` is the `Nat` order. -/
abbrev ULID := Nat

/-- External labels (`labels.Labels`): an ordered list of name/value pairs.
`labels.Equal` is structural equality and `labels.FromMap`/`Labels.Map`
round-trip, so both are the identity on this representation. -/
abbrev Lbls := List (String × String)

/-- Model of `tsdb.BlockMeta` (the fields the compactor reads): id, half-open time range
`[minTime, maxTime)` in milliseconds, compaction level, source block ids and
the sample count (`BlockStats.NumSamples`). -/
structure BlockMeta where
  ulid : ULID
  minTime : Int
  maxTime : Int
  level : Nat
  sources : List ULID
  numSamples : Nat
  deriving DecidableEq, Repr

/-- Model of `metadata.Meta`: a `tsdb.BlockMeta` plus the Thanos section, of which the
compactor uses the external labels and the downsampling resolution. -/
structure Meta where
  block : BlockMeta
  labels : Lbls
  resolution : Int
  deriving DecidableEq, Repr

/-- The error values the compaction engine produces and classifies.
`base` is any plain error (externally produced errors are `base` of their
message); `wrap` is `errors.Wrap`/`Wrapf` (adds a message, keeps the cause);
`halt`, `retryE`, `issue347`, `oooChunks` are the package's `HaltError`,
`RetryError`, `Issue347Error` and `OutOfOrderChunksError` wrappers; `multi`
is `errutil.NonNilMultiRootError` (a non-nil list of member errors). -/
inductive Err where
  | base : String → Err
  | wrap : String → Err → Err
  | halt : Err → Err
  | retryE : Err → Err
  | issue347 : Err → ULID → Err
  | oooChunks : Err → ULID → Err
  | multi : List Err → Err
  deriving Repr

mutual

/-- Rendering of `error.Error()` for the modelled error values.  `wrap` renders as
`"msg: cause"` (pkg/errors `withMessage`); the typed wrappers delegate to the
wrapped error, as their `Error()` methods do; `multi` joins members with
`"; "` (errutil). -/
def Err.message : Err → String
  | .base s => s
  | .wrap s e => s ++ ": " ++ e.message
  | .halt e => e.message
  | .retryE e => e.message
  | .issue347 e _ => e.message
  | .oooChunks e _ => e.message
  | .multi es => Err.messageList es

/-- Rendering of the member list of a multi-error, joined with `"; "`. -/
def Err.messageList : List Err → String
  | [] => ""
  | [e] => e.message
  | e :: rest => e.message ++ "; " ++ Err.messageList rest

end

/-- Model of `errors.Cause`: repeatedly unwraps `errors.Wrap` layers.  The typed
wrappers (`HaltError`, `RetryError`, `Issue347Error`, `OutOfOrderChunksError`)
and multi-errors do not implement `Cause() error`, so unwrapping stops at
them. -/
def errorsCause : Err → Err
  | .wrap _ e => errorsCause e
  | e => e

/-- Whether `errors.Cause(e)` is a `HaltError` (the per-member test inside
`IsHaltError`'s multi-error loop). -/
def causeIsHaltError (e : Err) : Bool :=
  match errorsCause e with
  | .halt _ => true
  | _ => false

/-- Whether `errors.Cause(e)` is a `RetryError` (the per-member test inside
`IsRetryError`'s multi-error loop). -/
def causeIsRetryError (e : Err) : Bool :=
  match errorsCause e with
  | .retryE _ => true
  | _ => false

/-- Model of `IsHaltError`: on a multi-error cause, true iff some member's cause is a
`HaltError`; otherwise true iff the cause itself is a `HaltError`. -/
def IsHaltError (err : Err) : Bool :=
  match errorsCause err with
  | .multi es => es.any causeIsHaltError
  | .halt _ => true
  | _ => false

/-- Model of `IsRetryError`: on a multi-error cause, true iff every member's cause is a
`RetryError`; otherwise true iff the cause itself is a `RetryError`. -/
def IsRetryError (err : Err) : Bool :=
  match errorsCause err with
  | .multi es => es.all causeIsRetryError
  | .retryE _ => true
  | _ => false

/-- Model of `retry`: wraps an error as retryable unless it already classifies as a
halt error, in which case it is returned unchanged. -/
def retry (err : Err) : Err :=
  if IsHaltError err then err else .retryE err

/-- The bucket effects of one engine call: block downloads, block uploads and
deletion-marker writes (`block.MarkForDeletion` with its reason string).
Only operations that succeeded against the bucket are recorded. -/
inductive Effect where
  | download (id : ULID)
  | upload (id : ULID)
  | markForDeletion (id : ULID) (reason : String)
  deriving DecidableEq, Repr

/-- The deletion-marker writes `(id, reason)` contained in a trace. -/
def marksOf (tr : List Effect) : List (ULID × String) :=
  tr.filterMap fun e =>
    match e with
    | .markForDeletion id r => some (id, r)
    | _ => none

/-- The block uploads contained in a trace. -/
def uploadsOf (tr : List Effect) : List ULID :=
  tr.filterMap fun e =>
    match e with
    | .upload id => some id
    | _ => none

/-- The block downloads contained in a trace. -/
def downloadsOf (tr : List Effect) : List ULID :=
  tr.filterMap fun e =>
    match e with
    | .download id => some id
    | _ => none

/-- Ordering of metas by `minTime`, the comparison `sort.Slice` is given in
`AppendMeta` and `areBlocksOverlapping`. -/
def metaMinTimeLE (a b : Meta) : Prop := a.block.minTime ≤ b.block.minTime

instance : DecidableRel metaMinTimeLE := fun _ _ => Int.decLe _ _

instance : IsTotal Meta metaMinTimeLE := ⟨fun _ _ => Int.le_total _ _⟩

instance : IsTrans Meta metaMinTimeLE := ⟨fun _ _ _ h1 h2 => le_trans h1 h2⟩

/-- Ordering of raw block metas by `minTime`. -/
def blockMinTimeLE (a b : BlockMeta) : Prop := a.minTime ≤ b.minTime

instance : DecidableRel blockMinTimeLE := fun _ _ => Int.decLe _ _

instance : IsTotal BlockMeta blockMinTimeLE := ⟨fun _ _ => Int.le_total _ _⟩

instance : IsTrans BlockMeta blockMinTimeLE := ⟨fun _ _ _ h1 h2 => le_trans h1 h2⟩

/-- Model of `sort.Slice(metas, func(i,j) { return metas[i].MinTime < metas[j].MinTime })`.
`sort.Slice` is an unstable sort, but on the small slices the engine sorts Go
falls back to insertion sort, which is stable; the model uses a stable
insertion sort by `minTime` throughout. -/
def sortMetasByMinTime (l : List Meta) : List Meta :=
  List.insertionSort metaMinTimeLE l

/-- The same sort on raw `tsdb.BlockMeta` values (`areBlocksOverlapping`). -/
def sortBlocksByMinTime (l : List BlockMeta) : List BlockMeta :=
  List.insertionSort blockMinTimeLE l

/-- One step of `tsdb.OverlappingBlocks`: walk blocks sorted by `minTime`
keeping the not-yet-ended previous blocks as `pending`; a block whose
`minTime` is before the `maxTime` of a pending block overlaps it.  The Go
function collects all overlap groups and the caller only tests whether any
were found, so the model returns that Boolean directly. -/
def overlapsAfter (pending : List BlockMeta) : List BlockMeta → Bool
  | [] => false
  | b :: rest =>
    let newPending := pending.filter fun p => decide (b.minTime < p.maxTime)
    if newPending.isEmpty then overlapsAfter [b] rest else true

/-- Whether `len(tsdb.OverlappingBlocks(bm)) > 0`, for a list already sorted by
`minTime` (lists of length at most one report no overlap). -/
def hasOverlaps : List BlockMeta → Bool
  | [] => false
  | b :: rest => overlapsAfter [b] rest

/-- Two half-open `[minTime, maxTime)` ranges intersect (the specification's
notion of overlapping blocks). -/
def overlapping (a b : BlockMeta) : Prop :=
  max a.minTime b.minTime < min a.maxTime b.maxTime

instance (a b : BlockMeta) : Decidable (overlapping a b) := by
  unfold overlapping; infer_instance

/-- A compaction group (`Group`): blocks sharing external labels and
downsampling resolution.  The mutex and metrics counters are elided; the
logger, bucket handle and concurrency knobs live in the environment. -/
structure Group where
  key : String
  labels : Lbls
  resolution : Int
  metasByMinTime : List Meta
  acceptMalformedIndex : Bool
  enableVerticalCompaction : Bool
  deriving DecidableEq, Repr

/-- Model of `NewGroup`: a fresh group with no members.  (The source additionally
validates `blockFilesConcurrency > 0`; concurrency knobs are not modelled.) -/
def NewGroup (key : String) (lset : Lbls) (resolution : Int)
    (acceptMalformedIndex enableVerticalCompaction : Bool) : Group :=
  { key := key
    labels := lset
    resolution := resolution
    metasByMinTime := []
    acceptMalformedIndex := acceptMalformedIndex
    enableVerticalCompaction := enableVerticalCompaction }

/-- Model of `(*Group).AppendMeta`: reject the meta unless its labels and resolution
match the group's; otherwise append it and re-sort `metasByMinTime` by
`minTime`. -/
def Group.AppendMeta (cg : Group) (m : Meta) : Except Err Group :=
  if cg.labels ≠ m.labels then
    .error (.base "block and group labels do not match")
  else if cg.resolution ≠ m.resolution then
    .error (.base "block and group resolution do not match")
  else
    .ok { cg with metasByMinTime := sortMetasByMinTime (cg.metasByMinTime ++ [m]) }

/-- Model of `(*Group).IDs`: all block ids of the group, sorted. -/
def Group.IDs (cg : Group) : List ULID :=
  List.insertionSort (· ≤ ·) (cg.metasByMinTime.map (·.block.ulid))

/-- Model of `(*Group).deleteFromGroup`: drop every meta whose id is in `target`. -/
def Group.deleteFromGroup (cg : Group) (target : List ULID) : Group :=
  { cg with metasByMinTime :=
      cg.metasByMinTime.filter fun m => !(target.contains m.block.ulid) }

/-- Model of `(*Group).areBlocksOverlapping`: gather the group's block metas except the
excluded ones, optionally add one more, sort by `minTime` and fail when
`tsdb.OverlappingBlocks` reports overlaps.  (The Go error message carries a
rendering of the overlap groups; the model keeps the fixed prefix only.) -/
def Group.areBlocksOverlapping (cg : Group) (includeMeta : Option Meta)
    (exclude : List Meta) : Except Err Unit :=
  let excludeIDs := exclude.map (·.block.ulid)
  let metas0 := (cg.metasByMinTime.filter fun m =>
    !(excludeIDs.contains m.block.ulid)).map (·.block)
  let metas1 :=
    match includeMeta with
    | some m => metas0 ++ [m.block]
    | none => metas0
  if hasOverlaps (sortBlocksByMinTime metas1) then
    .error (.base "overlaps found while gathering blocks.")
  else
    .ok ()

/-- Lexicographic comparison of character lists, written as a structurally
recursive Boolean so concrete group keys evaluate; it agrees with the
byte-wise `<` Go uses on the ASCII strings `GroupKey` produces. -/
def charListLT : List Char → List Char → Bool
  | _, [] => false
  | [], _ :: _ => true
  | a :: as, b :: bs =>
    if a.toNat < b.toNat then true
    else if b.toNat < a.toNat then false
    else charListLT as bs

/-- Go string comparison `a < b` for group keys. -/
def strLT (a b : String) : Bool := charListLT a.data b.data

/-- The non-strict key order `¬ (b.Key() < a.Key())` the final
`sort.Slice(res, ...)` of `Groups` sorts by. -/
def groupKeyLE (a b : Group) : Prop := strLT b.key a.key = false

instance : DecidableRel groupKeyLE := fun _ _ => instDecidableEqBool _ _

/-- Model of `DefaultGrouper`: the built-in grouper's configuration flags that reach
the groups it creates.  The bucket handle, metrics vectors, hash function and
concurrency knobs are elided (they are threaded through unchanged). -/
structure DefaultGrouper where
  acceptMalformedIndex : Bool
  enableVerticalCompaction : Bool
  deriving DecidableEq, Repr

/-- The body of `Groups`'s loop for one meta: find the group with the meta's
key, creating it at the end of the result list if absent (`res = append(res,
group)`), then `AppendMeta` the meta into it.  `keyOf` stands for the external
`metadata.Thanos.GroupKey()` (a deterministic string encoding of the label set
and resolution, via a hash). -/
def updateGroups (gr : DefaultGrouper) (keyOf : Meta → String) (m : Meta) :
    List Group → Except Err (List Group)
  | [] =>
    match (NewGroup (keyOf m) m.labels m.resolution
        gr.acceptMalformedIndex gr.enableVerticalCompaction).AppendMeta m with
    | .error e => .error (.wrap "add compaction group" e)
    | .ok g => .ok [g]
  | g :: gs =>
    if g.key = keyOf m then
      match g.AppendMeta m with
      | .error e => .error (.wrap "add compaction group" e)
      | .ok g2 => .ok (g2 :: gs)
    else
      match updateGroups gr keyOf m gs with
      | .error e => .error e
      | .ok gs2 => .ok (g :: gs2)

/-- Iteration of `Groups` over the block map.  Go map iteration order is
unspecified, so the map is presented as its value list in an arbitrary
iteration order. -/
def groupsLoop (gr : DefaultGrouper) (keyOf : Meta → String) :
    List Meta → List Group → Except Err (List Group)
  | [], acc => .ok acc
  | m :: rest, acc =>
    match updateGroups gr keyOf m acc with
    | .error e => .error e
    | .ok acc2 => groupsLoop gr keyOf rest acc2

/-- Model of `(*DefaultGrouper).Groups`: bucket every meta into the group for its key,
then sort the groups by key (`res[i].Key() < res[j].Key()`). -/
def DefaultGrouper.Groups (gr : DefaultGrouper) (keyOf : Meta → String)
    (blocks : List Meta) : Except Err (List Group) :=
  match groupsLoop gr keyOf blocks [] with
  | .error e => .error e
  | .ok res => .ok (List.insertionSort groupKeyLE res)

/-- The inputs `(*Syncer).GarbageCollect` reads: the deletion-marked ids from
the ignore-deletion-mark filter, the duplicate ids from the deduplicate
filter, and the bucket's response to each `block.MarkForDeletion` write
(`none` = success, `some msg` = failure).  Context cancellation and the
5-minute marker deadline are not modelled (no clock). -/
structure GCEnv where
  deletionMarkBlocks : List ULID
  duplicateIDs : List ULID
  markForDeletion : ULID → Option String

/-- The marking loop of `GarbageCollect` over `garbageIDs`: write a deletion
marker with reason `"outdated block"`; on failure abort the whole call with a
retryable error; on success delete the id from the in-memory block map and
continue. -/
def gcLoop (env : GCEnv) :
    List ULID → List (ULID × Meta) → List Effect →
    Except Err Unit × List (ULID × Meta) × List Effect
  | [], blocks, trace => (.ok (), blocks, trace)
  | id :: rest, blocks, trace =>
    match env.markForDeletion id with
    | some msg =>
      (.error (retry (.wrap ("mark block " ++ toString id ++ " for deletion") (.base msg))),
        blocks, trace)
    | none =>
      gcLoop env rest (blocks.filter fun kv => kv.1 != id)
        (trace ++ [Effect.markForDeletion id "outdated block"])

/-- Model of `(*Syncer).GarbageCollect`: `garbageIDs` are the duplicate ids not already
deletion-marked; each is marked with reason `"outdated block"` and removed
from the syncer's block map.  Returns the call result, the remaining block
map and the bucket effects. -/
def GarbageCollect (env : GCEnv) (blocks : List (ULID × Meta)) :
    Except Err Unit × List (ULID × Meta) × List Effect :=
  let garbageIDs := env.duplicateIDs.filter fun id =>
    !(env.deletionMarkBlocks.contains id)
  gcLoop env garbageIDs blocks []

/-- Model of `block.HealthStats` as consumed by the download loop: each diagnosis is
either absent or an error message. -/
structure HealthStats where
  criticalErr : Option String
  outOfOrderChunksErr : Option String
  issue347OutsideChunksErr : Option String
  outOfOrderLabelsErr : Option String
  deriving DecidableEq, Repr

/-- A fully healthy index report. -/
def cleanStats : HealthStats :=
  { criticalErr := none
    outOfOrderChunksErr := none
    issue347OutsideChunksErr := none
    outOfOrderLabelsErr := none }

/-- The external collaborators of one `(*Group).Compact` call, as oracles:
the planner, the lifecycle callback, the bucket (downloads, uploads, marker
writes), the index health checker, the low-level compactor and the
block-deletable checker.  `Option String` oracles yield `none` on success and
the error message on failure. -/
structure CompactEnv where
  plan : List Meta → Except Err (List Meta)
  preCompactionCallback : List Meta → Except Err Unit
  getBlockPopulator : Except Err Unit
  download : ULID → Option String
  gatherIndexHealthStats : ULID → Except String HealthStats
  compactBlocks : List ULID → Except Err (List ULID)
  readMeta : ULID → Except String BlockMeta
  verifyResultBlock : ULID → Option String
  upload : ULID → Option String
  postCompactionCallback : ULID → Option String
  canDelete : ULID → Bool
  markForDeletion : ULID → Option String

/-- Model of `DefaultBlockDeletableChecker.CanDelete`: always true. -/
def DefaultBlockDeletableChecker : ULID → Bool := fun _ => true

/-- The source-duplication scan of
`DefaultCompactionLifecycleCallback.PreCompactionCallback`: a source id seen
twice is a halt error when vertical compaction is disabled, and only a logged
warning otherwise. -/
def checkDuplicateSources (enableVerticalCompaction : Bool) :
    List ULID → List ULID → Except Err Unit
  | _, [] => .ok ()
  | seen, s :: rest =>
    if seen.contains s then
      if !enableVerticalCompaction then
        .error (.halt (.base "overlapping sources detected for plan"))
      else
        checkDuplicateSources enableVerticalCompaction seen rest
    else
      checkDuplicateSources enableVerticalCompaction (seen ++ [s]) rest

/-- Model of `DefaultCompactionLifecycleCallback.PreCompactionCallback` over the
planned blocks' source lists. -/
def DefaultPreCompactionCallback (enableVerticalCompaction : Bool)
    (toCompactBlocks : List Meta) : Except Err Unit :=
  checkDuplicateSources enableVerticalCompaction []
    (toCompactBlocks.flatMap (·.block.sources))

/-- The download worker body for one planned block: download it (failure is
retryable), gather index health stats, then classify: critical error halts,
out-of-order chunks and issue-347 get their typed errors, out-of-order labels
fail unless malformed indexes are accepted. -/
def Group.downloadAndVerifyBlock (cg : Group) (env : CompactEnv) (m : Meta) :
    Except Err Unit × List Effect :=
  match env.download m.block.ulid with
  | some msg =>
    (.error (retry (.wrap ("download block " ++ toString m.block.ulid) (.base msg))), [])
  | none =>
    let trace := [Effect.download m.block.ulid]
    match env.gatherIndexHealthStats m.block.ulid with
    | .error msg =>
      (.error (.wrap ("gather index issues for block " ++ toString m.block.ulid) (.base msg)),
        trace)
    | .ok stats =>
      match stats.criticalErr with
      | some msg =>
        (.error (.halt (.wrap "block with not healthy index found" (.base msg))), trace)
      | none =>
      match stats.outOfOrderChunksErr with
      | some msg =>
        (.error (.oooChunks
          (.wrap "blocks with out-of-order chunks are dropped from compaction" (.base msg))
          m.block.ulid), trace)
      | none =>
      match stats.issue347OutsideChunksErr with
      | some msg =>
        (.error (.issue347 (.wrap "invalid, but reparable block" (.base msg)) m.block.ulid),
          trace)
      | none =>
      match stats.outOfOrderLabelsErr with
      | some msg =>
        if !cg.acceptMalformedIndex then
          (.error (.wrap ("block id " ++ toString m.block.ulid ++
            ", try running with --debug.accept-malformed-index") (.base msg)), trace)
        else (.ok (), trace)
      | none => (.ok (), trace)

/-- The download fan-out over the plan.  The source runs the workers
concurrently and `errgroup.Wait` returns the first error; the model runs them
in plan order and stops at the first error, which yields the same result and
the same set of bucket downloads on success. -/
def Group.downloadPhase (cg : Group) (env : CompactEnv) :
    List Meta → Except Err Unit × List Effect
  | [] => (.ok (), [])
  | m :: rest =>
    match cg.downloadAndVerifyBlock env m with
    | (.error e, tr) => (.error e, tr)
    | (.ok _, tr) =>
      match cg.downloadPhase env rest with
      | (r, tr2) => (r, tr ++ tr2)

/-- Model of `(*Group).deleteBlock`: remove the local copy (filesystem, elided) and, if
the block-deletable checker agrees, write a deletion marker with reason
`"source of compacted block"`.  Returns the marker-write error, if any, and
the bucket effects. -/
def Group.deleteBlockEff (_cg : Group) (env : CompactEnv) (id : ULID) :
    Option Err × List Effect :=
  if env.canDelete id then
    match env.markForDeletion id with
    | some msg =>
      (some (.wrap ("mark block " ++ toString id ++ " for deletion from bucket") (.base msg)),
        [])
    | none => (none, [Effect.markForDeletion id "source of compacted block"])
  else (none, [])

/-- The zero-result branch of `compact`: every input block with
`numSamples == 0` is marked deletable via `deleteBlock`; a failure there is
only logged (`failed to mark for deletion an empty block`), never returned. -/
def Group.deleteEmptySources (cg : Group) (env : CompactEnv) :
    List Meta → List Effect
  | [] => []
  | m :: rest =>
    (if m.block.numSamples = 0 then (cg.deleteBlockEff env m.block.ulid).2 else []) ++
      cg.deleteEmptySources env rest

/-- Post-processing of one result block: read its meta (tombstone removal on
the local filesystem is elided), verify its index unless malformed indexes are
accepted (halt on failure), inject the group's labels and resolution
(`metadata.InjectThanos`), re-run the overlap check against everything but the
compacted sources when vertical compaction is disabled (halt on overlap), then
upload it and run the post-compaction callback (both retryable on failure). -/
def Group.processResultBlock (cg : Group) (env : CompactEnv) (toCompact : List Meta)
    (compID : ULID) : Except Err Unit × List Effect :=
  match env.readMeta compID with
  | .error msg => (.error (.wrap "read new meta" (.base msg)), [])
  | .ok bm =>
    match (match env.verifyResultBlock compID with
           | some msg => if !cg.acceptMalformedIndex then some msg else none
           | none => none) with
    | some msg =>
      (.error (.halt (.wrap ("invalid result block " ++ toString compID) (.base msg))), [])
    | none =>
      let newMeta : Meta := { block := bm, labels := cg.labels, resolution := cg.resolution }
      match (if !cg.enableVerticalCompaction then
               cg.areBlocksOverlapping (some newMeta) toCompact
             else .ok ()) with
      | .error e =>
        (.error (.halt (.wrap ("resulted compacted block " ++ toString compID ++
          " overlaps with something") e)), [])
      | .ok _ =>
        match env.upload compID with
        | some msg =>
          (.error (retry (.wrap ("upload of " ++ toString compID ++ " failed") (.base msg))),
            [])
        | none =>
          match env.postCompactionCallback compID with
          | some msg =>
            (.error (retry (.wrap ("failed to run post compaction callback for result block "
              ++ toString compID) (.base msg))), [Effect.upload compID])
          | none => (.ok (), [Effect.upload compID])

/-- The loop over all result blocks. -/
def Group.processResultBlocks (cg : Group) (env : CompactEnv) (toCompact : List Meta) :
    List ULID → Except Err Unit × List Effect
  | [] => (.ok (), [])
  | compID :: rest =>
    match cg.processResultBlock env toCompact compID with
    | (.error e, tr) => (.error e, tr)
    | (.ok _, tr) =>
      match cg.processResultBlocks env toCompact rest with
      | (r, tr2) => (r, tr ++ tr2)

/-- The final loop of `compact`: mark every input block deletable via
`deleteBlock`; here a failure aborts the call with a retryable error. -/
def Group.markSourcesDeletable (cg : Group) (env : CompactEnv) :
    List Meta → Except Err Unit × List Effect
  | [] => (.ok (), [])
  | m :: rest =>
    match cg.deleteBlockEff env m.block.ulid with
    | (some e, tr) =>
      (.error (retry (.wrap "mark old block for deletion from bucket" e)), tr)
    | (none, tr) =>
      match cg.markSourcesDeletable env rest with
      | (r, tr2) => (r, tr ++ tr2)

/-- Model of `(*Group).compact` after the overlap pre-check: plan (empty plan returns
`(false, nil, nil)`), run the pre-compaction callback, download and verify the
inputs, merge them (zero result ids: mark empty inputs deletable and return
`(true, nil, nil)`), post-process and upload each result block, then mark the
inputs deletable and return `(true, compIDs, nil)`. -/
def Group.compactPlanned (cg : Group) (env : CompactEnv) :
    Except Err (Bool × List ULID) × List Effect :=
  match env.plan cg.metasByMinTime with
  | .error e => (.error (.wrap "plan compaction" e), [])
  | .ok toCompact =>
    if toCompact.isEmpty then (.ok (false, []), [])
    else
      match env.preCompactionCallback toCompact with
      | .error e =>
        (.error (.wrap "failed to run pre compaction callback for plan" e), [])
      | .ok _ =>
        match cg.downloadPhase env toCompact with
        | (.error e, tr) => (.error e, tr)
        | (.ok _, tr) =>
          let mergeRes : Except Err (List ULID) :=
            match env.getBlockPopulator with
            | .error e => .error e
            | .ok _ => env.compactBlocks (toCompact.map fun m => m.block.ulid)
          match mergeRes with
          | .error e => (.error (.halt (.wrap "compact blocks" e)), tr)
          | .ok compIDs =>
            if compIDs.isEmpty then
              (.ok (true, []), tr ++ cg.deleteEmptySources env toCompact)
            else
              match cg.processResultBlocks env toCompact compIDs with
              | (.error e, tr2) => (.error e, tr ++ tr2)
              | (.ok _, tr2) =>
                match cg.markSourcesDeletable env toCompact with
                | (.error e, tr3) => (.error e, tr ++ tr2 ++ tr3)
                | (.ok _, tr3) => (.ok (true, compIDs), tr ++ tr2 ++ tr3)

/-- Model of `(*Group).compact`: first check the group's blocks for overlapping time
ranges; with vertical compaction disabled an overlap is a halt error
(`"pre compaction overlap check"`) before any planning or bucket access,
otherwise compaction proceeds (the source only remembers the fact in
`overlappingBlocks` for a metrics counter, which is elided). -/
def Group.compact (cg : Group) (env : CompactEnv) :
    Except Err (Bool × List ULID) × List Effect :=
  match cg.areBlocksOverlapping none [] with
  | .error e =>
    if !cg.enableVerticalCompaction then
      (.error (.halt (.wrap "pre compaction overlap check" e)), [])
    else cg.compactPlanned env
  | .ok _ => cg.compactPlanned env

/-- Model of `(*Group).Compact`: the exported wrapper around `compact`.  Its additions
— run counters, the per-group work directory, tracing and panic recovery —
are metrics, filesystem and runtime concerns that do not change the returned
`(shouldRerun, compIDs, err)` or the bucket effects, so the model identifies
the two. -/
def Group.Compact (cg : Group) (env : CompactEnv) :
    Except Err (Bool × List ULID) × List Effect :=
  cg.compact env

/-- Modelled from the spec: `tsdb.CompactBlockMetas` (external to this
repository) synthesizes the combined meta of a planned compaction: the given
nominal id, the spanning time range, one compaction level above the highest
input, and the union of the inputs' sources. -/
def compactBlockMetas (uid : ULID) (blocks : List BlockMeta) : BlockMeta :=
  { ulid := uid
    minTime := (blocks.map (·.minTime)).foldr min 0
    maxTime := (blocks.map (·.maxTime)).foldr max 0
    level := (blocks.map (·.level)).foldr max 0 + 1
    sources := ((blocks.flatMap (·.sources)).dedup).insertionSort (· ≤ ·)
    numSamples := 0 }

/-- The inputs of the compaction-progress simulation: the planner and the
nominal id used for synthesized metas (`ulid.MustNew(uint64(time.Now().Unix()),
nil)` in the source — the current wall-clock second). -/
structure ProgressEnv where
  plan : List Meta → Except Err (List Meta)
  nominalID : ULID

/-- The simulation `ProgressCalculate` runs for one group, written as the
per-group fixpoint: a group stays in the loop until it is down to one block or
its plan is empty; each round removes the planned metas from the group's own
`metasByMinTime` (`deleteFromGroup`) and, if the group stays non-empty,
appends the synthesized combined meta (`AppendMeta`).  Groups evolve
independently in the source's loop, so the interleaving is immaterial; `fuel`
bounds the rounds (the source loop need not terminate when a plan returns a
single block). -/
def simulateGroup (env : ProgressEnv) : Nat → Group → Except Err Group
  | 0, _ => .error (.base "simulation fuel exhausted")
  | fuel + 1, g =>
    if g.IDs.length = 1 then .ok g
    else
      match env.plan g.metasByMinTime with
      | .error e => .error (.wrap "could not plan" e)
      | .ok plan =>
        if plan.isEmpty then .ok g
        else
          let toRemove := plan.map (·.block.ulid)
          let g1 := g.deleteFromGroup toRemove
          if g1.metasByMinTime.isEmpty then .ok g1
          else
            let newMeta : Meta :=
              { block := compactBlockMetas env.nominalID (plan.map (·.block))
                labels := g.labels
                resolution := g.resolution }
            match g1.AppendMeta newMeta with
            | .error e => .error (.wrap "append meta" e)
            | .ok g2 => simulateGroup env fuel g2

/-- Model of `(*CompactionProgressCalculator).ProgressCalculate` restricted to its
effect on the groups: the final state of every group passed in (the gauge
updates are elided).  The groups are `*Group` pointers in the source, so these
final states are exactly what the caller's groups hold after the call. -/
def CompactionProgressCalculate (env : ProgressEnv) (fuel : Nat) :
    List Group → Except Err (List Group)
  | [] => .ok []
  | g :: gs =>
    match simulateGroup env fuel g with
    | .error e => .error e
    | .ok g2 =>
      match CompactionProgressCalculate env fuel gs with
      | .error e => .error e
      | .ok gs2 => .ok (g2 :: gs2)

/-- Go map indexing `retentionByResolution[level]`: the entry's value, or the
zero duration when absent.  Durations are in nanoseconds (`time.Duration`). -/
def lookupRetention (retentionByResolution : List (Int × Int)) (level : Int) : Int :=
  match retentionByResolution.find? (fun kv => kv.1 == level) with
  | some kv => kv.2
  | none => 0

/-- The per-block test of `(*RetentionProgressCalculator).ProgressCalculate`:
skip when the retention duration is the zero duration
(`retentionDuration.Seconds() == 0`); otherwise count the block iff
`time.Now().After(time.Unix(m.MaxTime/1000, 0).Add(retentionDuration))` —
`maxTime` is truncated from milliseconds to whole seconds, and `After` is a
strict comparison.  `now` is in nanoseconds since the epoch. -/
def retentionBlockCounted (retentionByResolution : List (Int × Int)) (now : Int)
    (m : Meta) : Bool :=
  let retentionDuration := lookupRetention retentionByResolution m.resolution
  if retentionDuration = 0 then false
  else decide (now > (Int.tdiv m.block.maxTime 1000) * 1000000000 + retentionDuration)

/-- Model of `(*RetentionProgressCalculator).ProgressCalculate` restricted to the final
value of the `NumberOfBlocksToDelete` gauge: the number of counted blocks
across all groups. -/
def RetentionProgressCalculate (retentionByResolution : List (Int × Int)) (now : Int)
    (groups : List Group) : Nat :=
  (groups.map fun g =>
    (g.metasByMinTime.filter (retentionBlockCounted retentionByResolution now)).length).sum

/-- The halt error `compact` returns from the pre-compaction overlap check. -/
def haltOverlapErr : Err :=
  .halt (.wrap "pre compaction overlap check"
    (.base "overlaps found while gathering blocks."))

/-- Invariant of a well-formed group: every member carries the group's labels
and resolution. -/
def membersMatchGroup (cg : Group) : Prop :=
  ∀ m ∈ cg.metasByMinTime, m.labels = cg.labels ∧ m.resolution = cg.resolution

/-- Sample label set used by the concrete scenarios below. -/
def lblsA : Lbls := [("cluster", "a")]

/-- Sample block B1 `[0, 2h)`, 100 samples, level 1. -/
def bm1 : BlockMeta :=
  { ulid := 1, minTime := 0, maxTime := 7200000, level := 1,
    sources := [1], numSamples := 100 }

/-- Sample block B2 `[1h, 3h)`, overlapping B1. -/
def bm2 : BlockMeta :=
  { ulid := 2, minTime := 3600000, maxTime := 10800000, level := 1,
    sources := [2], numSamples := 100 }

/-- Sample block B3 `[2h, 4h)`, disjoint from B1. -/
def bm3 : BlockMeta :=
  { ulid := 3, minTime := 7200000, maxTime := 14400000, level := 1,
    sources := [3], numSamples := 100 }

/-- Sample raw-resolution metas over the blocks above. -/
def m1w : Meta := { block := bm1, labels := lblsA, resolution := 0 }

/-- Companion overlapping meta to `m1w`. -/
def m2w : Meta := { block := bm2, labels := lblsA, resolution := 0 }

/-- Companion disjoint meta to `m1w`. -/
def m3w : Meta := { block := bm3, labels := lblsA, resolution := 0 }

/-- A group holding the two overlapping blocks B1, B2, vertical compaction
disabled. -/
def gOv : Group :=
  { key := "0@k", labels := lblsA, resolution := 0,
    metasByMinTime := [m1w, m2w],
    acceptMalformedIndex := false, enableVerticalCompaction := false }

/-- Zero-sample variant of B1. -/
def bm1z : BlockMeta := { bm1 with numSamples := 0 }

/-- Zero-sample variant of B3. -/
def bm3z : BlockMeta := { bm3 with numSamples := 0 }

/-- Zero-sample meta over `bm1z`. -/
def mZ1 : Meta := { block := bm1z, labels := lblsA, resolution := 0 }

/-- Zero-sample meta over `bm3z`. -/
def mZ2 : Meta := { block := bm3z, labels := lblsA, resolution := 0 }

/-- A group of two disjoint zero-sample blocks (the all-empty-merge scenario). -/
def gZ : Group :=
  { key := "0@k", labels := lblsA, resolution := 0,
    metasByMinTime := [mZ1, mZ2],
    acceptMalformedIndex := false, enableVerticalCompaction := false }

/-- A benign compaction environment: the planner plans the whole group, every
bucket and index operation succeeds, the index is healthy, and the low-level
compactor reports zero result blocks (the all-empty merge). -/
def envOk : CompactEnv :=
  { plan := fun ms => .ok ms
    preCompactionCallback := fun _ => .ok ()
    getBlockPopulator := .ok ()
    download := fun _ => none
    gatherIndexHealthStats := fun _ => .ok cleanStats
    compactBlocks := fun _ => .ok []
    readMeta := fun id => .ok { ulid := id, minTime := 0, maxTime := 0, level := 2,
                                sources := [], numSamples := 0 }
    verifyResultBlock := fun _ => none
    upload := fun _ => none
    postCompactionCallback := fun _ => none
    canDelete := DefaultBlockDeletableChecker
    markForDeletion := fun _ => none }

/-- The benign environment with a planner that returns an empty plan. -/
def envEmptyPlan : CompactEnv := { envOk with plan := fun _ => .ok [] }

/-- A group of two disjoint non-empty blocks B1, B3 (progress simulation). -/
def gP : Group :=
  { key := "0@k", labels := lblsA, resolution := 0,
    metasByMinTime := [m1w, m3w],
    acceptMalformedIndex := false, enableVerticalCompaction := false }

/-- Progress-simulation environment whose planner plans the whole group. -/
def envP : ProgressEnv := { plan := fun ms => .ok ms, nominalID := 99 }

/-- Meta sharing `minTime = 0` with `mTieB` but with the smaller id. -/
def mTieA : Meta :=
  { block := { ulid := 1, minTime := 0, maxTime := 7200000, level := 1,
               sources := [10], numSamples := 5 },
    labels := lblsA, resolution := 0 }

/-- Meta sharing `minTime = 0` with `mTieA` but with the larger id. -/
def mTieB : Meta :=
  { block := { ulid := 2, minTime := 0, maxTime := 3600000, level := 1,
               sources := [11], numSamples := 5 },
    labels := lblsA, resolution := 0 }

/-- A grouper with default flags. -/
def grC : DefaultGrouper :=
  { acceptMalformedIndex := false, enableVerticalCompaction := false }

/-- A constant key function: both tie metas share one group key. -/
def keyC : Meta → String := fun _ => "0@h"

/-- The group `Groups` builds from the iteration order `[mTieB, mTieA]`. -/
def gTie : Group :=
  { key := "0@h", labels := lblsA, resolution := 0,
    metasByMinTime := [mTieB, mTieA],
    acceptMalformedIndex := false, enableVerticalCompaction := false }

/-- A 5-minute-resolution meta (distinct group key from the raw metas). -/
def mRes5m : Meta :=
  { block := { ulid := 7, minTime := 0, maxTime := 36000000, level := 2,
               sources := [7], numSamples := 50 },
    labels := lblsA, resolution := 300000 }

/-- A key function distinguishing raw from 5m resolution. -/
def keyW : Meta → String := fun m => if m.resolution = 0 then "0@h" else "300000@h"

/-- Retention configuration: raw blocks are kept one hour. -/
def rbr0 : List (Int × Int) := [(0, 3600000000000)]

/-- A raw block whose `maxTime` is the epoch. -/
def mR : Meta :=
  { block := { ulid := 5, minTime := -3600000, maxTime := 0, level := 1,
               sources := [5], numSamples := 10 },
    labels := lblsA, resolution := 0 }

/-- A single-block group holding `mR`. -/
def gR : Group :=
  { key := "0@k", labels := lblsA, resolution := 0,
    metasByMinTime := [mR],
    acceptMalformedIndex := false, enableVerticalCompaction := false }

/-- Garbage-collection environment: duplicates 1, 2, 3, of which 2 is already
deletion-marked; every marker write succeeds. -/
def gcEnvOk : GCEnv :=
  { deletionMarkBlocks := [2]
    duplicateIDs := [1, 2, 3]
    markForDeletion := fun _ => none }

/-- The syncer's in-memory block map for the GC scenario. -/
def gcBlocks : List (ULID × Meta) := [(1, m1w), (4, m3w)]

/-- Two distinct members of a list form a two-element sublist in one of the
two orders. -/
theorem pair_sublist_of_mem {α : Type} {l : List α} {a b : α}
    (ha : a ∈ l) (hb : b ∈ l) (hne : a ≠ b) :
    [a, b].Sublist l ∨ [b, a].Sublist l := by
  induction l with
  | nil => cases ha
  | cons x t ih =>
    rcases List.mem_cons.mp ha with rfl | ha2
    · have hb2 : b ∈ t := by
        rcases List.mem_cons.mp hb with rfl | h
        · exact absurd rfl hne
        · exact h
      exact Or.inl (List.Sublist.cons₂ a (List.singleton_sublist.mpr hb2))
    · rcases List.mem_cons.mp hb with rfl | hb2
      · exact Or.inr (List.Sublist.cons₂ b (List.singleton_sublist.mpr ha2))
      · exact (ih ha2 hb2).imp (List.Sublist.cons x) (List.Sublist.cons x)

/-- If some pending block is still open at a later block of a sorted tail, the
overlap scan reports an overlap. -/
theorem overlapsAfter_of_pending {pending rest : List BlockMeta} {p b : BlockMeta}
    (hp : p ∈ pending) (hb : b ∈ rest)
    (hsort : rest.Pairwise blockMinTimeLE)
    (hlt : b.minTime < p.maxTime) : overlapsAfter pending rest = true := by
  cases rest with
  | nil => cases hb
  | cons b0 rest2 =>
    have hb0 : b0.minTime ≤ b.minTime := by
      rcases List.mem_cons.mp hb with rfl | hb2
      · exact le_refl _
      · exact (List.pairwise_cons.mp hsort).1 b hb2
    have hlt0 : b0.minTime < p.maxTime := lt_of_le_of_lt hb0 hlt
    have hmem : p ∈ pending.filter (fun q => decide (b0.minTime < q.maxTime)) :=
      List.mem_filter.mpr ⟨hp, by simpa using hlt0⟩
    have hne : (pending.filter fun q => decide (b0.minTime < q.maxTime)) ≠ [] :=
      List.ne_nil_of_mem hmem
    simp only [overlapsAfter]
    rw [if_neg (by simpa [List.isEmpty_iff] using hne)]

/-- If a sorted tail contains an overlapping pair in order, the overlap scan
reports an overlap. -/
theorem overlapsAfter_of_sublist {rest : List BlockMeta} {a b : BlockMeta}
    (pending : List BlockMeta)
    (hsub : [a, b].Sublist rest)
    (hsort : rest.Pairwise blockMinTimeLE)
    (hov : overlapping a b) : overlapsAfter pending rest = true := by
  induction rest generalizing pending with
  | nil => simp at hsub
  | cons b0 rest2 ih =>
    cases hsub with
    | cons _ htail =>
      simp only [overlapsAfter]
      split
      · exact ih [b0] htail (List.pairwise_cons.mp hsort).2
      · rfl
    | cons₂ _ htail =>
      have hbmem : b ∈ rest2 := List.singleton_sublist.mp htail
      have h2 : b.minTime < a.maxTime :=
        lt_of_le_of_lt (le_max_right _ _) (lt_of_lt_of_le hov (min_le_left _ _))
      simp only [overlapsAfter]
      split
      · exact overlapsAfter_of_pending (List.mem_singleton.mpr rfl) hbmem
          (List.pairwise_cons.mp hsort).2 h2
      · rfl

/-- A sorted block list containing two distinct overlapping blocks makes
`hasOverlaps` report an overlap. -/
theorem hasOverlaps_of_mem {s : List BlockMeta} {a b : BlockMeta}
    (hsort : s.Pairwise blockMinTimeLE)
    (ha : a ∈ s) (hb : b ∈ s) (hne : a ≠ b) (hov : overlapping a b) :
    hasOverlaps s = true := by
  have hov2 : overlapping b a := by
    simpa [overlapping, max_comm, min_comm] using hov
  cases s with
  | nil => cases ha
  | cons b0 rest =>
    simp only [hasOverlaps]
    rcases pair_sublist_of_mem ha hb hne with h | h
    · cases h with
      | cons _ htail =>
        exact overlapsAfter_of_sublist [b0] htail (List.pairwise_cons.mp hsort).2 hov
      | cons₂ _ htail =>
        have hbmem : b ∈ rest := List.singleton_sublist.mp htail
        have h2 : b.minTime < a.maxTime :=
          lt_of_le_of_lt (le_max_right _ _) (lt_of_lt_of_le hov (min_le_left _ _))
        exact overlapsAfter_of_pending (List.mem_singleton.mpr rfl) hbmem
          (List.pairwise_cons.mp hsort).2 h2
    · cases h with
      | cons _ htail =>
        exact overlapsAfter_of_sublist [b0] htail (List.pairwise_cons.mp hsort).2 hov2
      | cons₂ _ htail =>
        have hamem : a ∈ rest := List.singleton_sublist.mp htail
        have h2 : a.minTime < b.maxTime :=
          lt_of_le_of_lt (le_max_right _ _) (lt_of_lt_of_le hov2 (min_le_left _ _))
        exact overlapsAfter_of_pending (List.mem_singleton.mpr rfl) hamem
          (List.pairwise_cons.mp hsort).2 h2

/-- A group whose members contain two distinct overlapping blocks fails the
pre-compaction overlap check with the overlap error. -/
theorem areBlocksOverlapping_detects {cg : Group} {m1 m2 : Meta}
    (h1 : m1 ∈ cg.metasByMinTime) (h2 : m2 ∈ cg.metasByMinTime)
    (hne : m1.block.ulid ≠ m2.block.ulid)
    (hov : overlapping m1.block m2.block) :
    cg.areBlocksOverlapping none [] =
      .error (.base "overlaps found while gathering blocks.") := by
  have hfil : (cg.metasByMinTime.filter fun m =>
      !((([] : List Meta).map (·.block.ulid)).contains m.block.ulid)) =
      cg.metasByMinTime := by
    simp
  have hblockne : m1.block ≠ m2.block := fun h => hne (congrArg BlockMeta.ulid h)
  have hsorted : (sortBlocksByMinTime (cg.metasByMinTime.map (·.block))).Pairwise
      blockMinTimeLE :=
    List.sorted_insertionSort blockMinTimeLE _
  have hm1 : m1.block ∈ sortBlocksByMinTime (cg.metasByMinTime.map (·.block)) := by
    unfold sortBlocksByMinTime
    exact (List.mem_insertionSort _).mpr (List.mem_map_of_mem _ h1)
  have hm2 : m2.block ∈ sortBlocksByMinTime (cg.metasByMinTime.map (·.block)) := by
    unfold sortBlocksByMinTime
    exact (List.mem_insertionSort _).mpr (List.mem_map_of_mem _ h2)
  have hover : hasOverlaps (sortBlocksByMinTime (cg.metasByMinTime.map (·.block))) = true :=
    hasOverlaps_of_mem hsorted hm1 hm2 hblockne hov
  unfold Group.areBlocksOverlapping
  simp only [hfil]
  rw [if_pos hover]

/-- C1: for every group whose `metasByMinTime` contains two blocks with
overlapping `[minTime, maxTime)` ranges, if vertical compaction is disabled
then `Group.Compact` returns a halt error whose message contains
`"pre compaction overlap check"`, and no deletion markers (indeed no bucket
effects at all) are written during that call. -/
theorem compact_overlap_vertical_disabled_halts (cg : Group) (env : CompactEnv)
    (hv : cg.enableVerticalCompaction = false)
    {m1 m2 : Meta} (h1 : m1 ∈ cg.metasByMinTime) (h2 : m2 ∈ cg.metasByMinTime)
    (hne : m1.block.ulid ≠ m2.block.ulid)
    (hov : overlapping m1.block m2.block) :
    cg.Compact env = (.error haltOverlapErr, []) ∧
    IsHaltError haltOverlapErr = true ∧
    (∃ pre post, haltOverlapErr.message = pre ++ "pre compaction overlap check" ++ post) ∧
    marksOf (cg.Compact env).2 = [] := by
  have hchk := areBlocksOverlapping_detects h1 h2 hne hov
  have hres : cg.Compact env = (.error haltOverlapErr, []) := by
    unfold Group.Compact Group.compact
    rw [hchk, hv]
    rfl
  refine ⟨hres, rfl, ⟨"", ": overlaps found while gathering blocks.", ?_⟩, ?_⟩
  · rfl
  · rw [hres]
    rfl

/-- Witness for C1 at the concrete overlapping group `gOv`. -/
theorem compact_overlap_vertical_disabled_halts_witness :
    gOv.enableVerticalCompaction = false ∧
    m1w ∈ gOv.metasByMinTime ∧ m2w ∈ gOv.metasByMinTime ∧
    m1w.block.ulid ≠ m2w.block.ulid ∧ overlapping m1w.block m2w.block ∧
    gOv.Compact envOk = (.error haltOverlapErr, []) ∧
    marksOf (gOv.Compact envOk).2 = [] := by
  have h := @compact_overlap_vertical_disabled_halts gOv envOk rfl
    m1w m2w (by decide) (by decide) (by decide) (by decide)
  exact ⟨rfl, by decide, by decide, by decide, by decide, h.1, h.2.2.2⟩

/-- C3 (amended): for every group that passes the pre-compaction overlap
check (no overlapping members or vertical compaction enabled — an empty group
always passes) and on which the planner returns an empty plan, `Group.Compact`
returns `(shouldRerun = false, resultIDs = nil, err = nil)` and performs no
download, upload, or deletion-marking (the effect trace is empty). -/
theorem compact_empty_plan_no_op (cg : Group) (env : CompactEnv)
    (hplan : env.plan cg.metasByMinTime = .ok [])
    (hok : cg.areBlocksOverlapping none [] = .ok () ∨
      cg.enableVerticalCompaction = true) :
    cg.Compact env = (.ok (false, []), []) ∧
    downloadsOf (cg.Compact env).2 = [] ∧
    uploadsOf (cg.Compact env).2 = [] ∧
    marksOf (cg.Compact env).2 = [] := by
  have hplanned : cg.compactPlanned env = (.ok (false, []), []) := by
    unfold Group.compactPlanned
    rw [hplan]
    rfl
  have hres : cg.Compact env = (.ok (false, []), []) := by
    unfold Group.Compact Group.compact
    rcases hok with h | h
    · rw [h, hplanned]
    · cases hchk : cg.areBlocksOverlapping none [] with
      | error e => rw [h]; simpa using hplanned
      | ok u => rw [hplanned]
  exact ⟨hres, by rw [hres]; rfl, by rw [hres]; rfl, by rw [hres]; rfl⟩

/-- Counterexample to C3 as stated: on the overlapping group `gOv` (vertical
compaction disabled) the planner returns an empty plan, yet `Group.Compact`
returns the pre-compaction overlap halt error, not `(false, nil, nil)` — the
overlap check runs before planning. -/
theorem compact_empty_plan_counterexample :
    envEmptyPlan.plan gOv.metasByMinTime = .ok [] ∧
    gOv.Compact envEmptyPlan = (.error haltOverlapErr, []) ∧
    gOv.Compact envEmptyPlan ≠ (.ok (false, []), []) := by
  have h : gOv.Compact envEmptyPlan = (.error haltOverlapErr, []) := by
    have := @areBlocksOverlapping_detects gOv m1w m2w
      (by decide) (by decide) (by decide) (by decide)
    unfold Group.Compact Group.compact
    rw [this]
    rfl
  refine ⟨rfl, h, ?_⟩
  rw [h]
  intro hh
  exact absurd (congrArg Prod.fst hh) (by simp)

/-- Witness for C3 (amended) at a concrete non-overlapping group with an
empty plan. -/
theorem compact_empty_plan_no_op_witness :
    envEmptyPlan.plan gZ.metasByMinTime = .ok [] ∧
    gZ.areBlocksOverlapping none [] = .ok () ∧
    gZ.Compact envEmptyPlan = (.ok (false, []), []) ∧
    marksOf (gZ.Compact envEmptyPlan).2 = [] := by
  have h := compact_empty_plan_no_op gZ envEmptyPlan rfl (Or.inl rfl)
  exact ⟨rfl, rfl, h.1, h.2.2.2⟩

/-- The trace of one download worker contains neither deletion-marker writes
nor uploads. -/
theorem downloadAndVerifyBlock_effects (cg : Group) (env : CompactEnv) (m : Meta) :
    marksOf (cg.downloadAndVerifyBlock env m).2 = [] ∧
    uploadsOf (cg.downloadAndVerifyBlock env m).2 = [] := by
  unfold Group.downloadAndVerifyBlock
  constructor <;> (repeat' split) <;> rfl

/-- The trace of the whole download phase contains neither deletion-marker
writes nor uploads. -/
theorem downloadPhase_effects (cg : Group) (env : CompactEnv) (l : List Meta) :
    marksOf (cg.downloadPhase env l).2 = [] ∧
    uploadsOf (cg.downloadPhase env l).2 = [] := by
  induction l with
  | nil => exact ⟨rfl, rfl⟩
  | cons m rest ih =>
    have hm := downloadAndVerifyBlock_effects cg env m
    unfold Group.downloadPhase
    cases hdv : cg.downloadAndVerifyBlock env m with
    | mk r tr =>
      rw [hdv] at hm
      cases r with
      | error e => exact hm
      | ok u =>
        cases hdp : cg.downloadPhase env rest with
        | mk r2 tr2 =>
          rw [hdp] at ih
          simp only [marksOf, uploadsOf, List.filterMap_append] at *
          exact ⟨by rw [hm.1, ih.1]; rfl, by rw [hm.2, ih.2]; rfl⟩

/-- With the default block-deletable checker and a bucket accepting every
marker write, the zero-result branch marks exactly the zero-sample inputs,
with reason `"source of compacted block"`. -/
theorem deleteEmptySources_spec (cg : Group) (env : CompactEnv)
    (hcan : env.canDelete = DefaultBlockDeletableChecker)
    (hmark : ∀ id, env.markForDeletion id = none) (l : List Meta) :
    cg.deleteEmptySources env l =
      (l.filter fun m => m.block.numSamples == 0).map
        (fun m => Effect.markForDeletion m.block.ulid "source of compacted block") := by
  induction l with
  | nil => rfl
  | cons m rest ih =>
    unfold Group.deleteEmptySources
    rw [ih]
    by_cases h : m.block.numSamples = 0
    · have hdel : (cg.deleteBlockEff env m.block.ulid).2 =
          [Effect.markForDeletion m.block.ulid "source of compacted block"] := by
        unfold Group.deleteBlockEff
        rw [hcan, hmark]
        rfl
      simp [h, hdel]
    · simp [h]

/-- Marks of a pure list of marker effects. -/
theorem marksOf_map_mark (l : List Meta) :
    marksOf (l.map fun m =>
      Effect.markForDeletion m.block.ulid "source of compacted block") =
      l.map (fun m => (m.block.ulid, "source of compacted block")) := by
  induction l with
  | nil => rfl
  | cons m rest ih => simp [marksOf, List.filterMap_cons] at *; exact ih

/-- Uploads of a pure list of marker effects. -/
theorem uploadsOf_map_mark (l : List Meta) :
    uploadsOf (l.map fun m =>
      Effect.markForDeletion m.block.ulid "source of compacted block") = [] := by
  induction l with
  | nil => rfl
  | cons m rest ih => simp [uploadsOf, List.filterMap_cons]

/-- C2: for every group on which the compaction call reaches the low-level
compactor (the overlap pre-check passes, the plan is non-empty, the
pre-compaction callback and the downloads succeed) and the compactor returns
zero result block ids, `Group.compact` — run with the default block-deletable
checker and a bucket accepting marker writes — marks deletable exactly those
input blocks whose `numSamples` equals 0, uploads nothing, and returns
`shouldRerun = true` with an empty result-id list and no error. -/
theorem compact_zero_result_ids (cg : Group) (env : CompactEnv) (toCompact : List Meta)
    (hok : cg.areBlocksOverlapping none [] = .ok () ∨
      cg.enableVerticalCompaction = true)
    (hplan : env.plan cg.metasByMinTime = .ok toCompact)
    (hne : toCompact ≠ [])
    (hpre : env.preCompactionCallback toCompact = .ok ())
    (hdl : (cg.downloadPhase env toCompact).1 = .ok ())
    (hpop : env.getBlockPopulator = .ok ())
    (hcomp : env.compactBlocks (toCompact.map fun m => m.block.ulid) = .ok [])
    (hcan : env.canDelete = DefaultBlockDeletableChecker)
    (hmark : ∀ id, env.markForDeletion id = none) :
    (cg.compact env).1 = .ok (true, []) ∧
    marksOf (cg.compact env).2 =
      (toCompact.filter fun m => m.block.numSamples == 0).map
        (fun m => (m.block.ulid, "source of compacted block")) ∧
    uploadsOf (cg.compact env).2 = [] := by
  have hplanned : ∃ tr, cg.compactPlanned env =
      (.ok (true, []), tr ++ cg.deleteEmptySources env toCompact) ∧
      marksOf tr = [] ∧ uploadsOf tr = [] := by
    refine ⟨(cg.downloadPhase env toCompact).2, ?_, ?_, ?_⟩
    · have hne2 : toCompact.isEmpty = false := by simpa [List.isEmpty_iff] using hne
      cases hdp : cg.downloadPhase env toCompact with
      | mk r tr =>
        rw [hdp] at hdl
        simp only at hdl
        subst hdl
        unfold Group.compactPlanned
        simp [hplan, hne2, hpre, hdp, hpop, hcomp]
    · exact (downloadPhase_effects cg env toCompact).1
    · exact (downloadPhase_effects cg env toCompact).2
  obtain ⟨tr, hres, hmk, hup⟩ := hplanned
  have hcompact : cg.compact env =
      (.ok (true, []), tr ++ cg.deleteEmptySources env toCompact) := by
    unfold Group.compact
    rcases hok with h | h
    · rw [h, hres]
    · cases hchk : cg.areBlocksOverlapping none [] with
      | error e => rw [h]; simpa using hres
      | ok u => rw [hres]
  rw [hcompact]
  have hdes := deleteEmptySources_spec cg env hcan hmark toCompact
  refine ⟨rfl, ?_, ?_⟩
  · simp only [marksOf, List.filterMap_append] at *
    rw [hmk, hdes]
    simpa [marksOf] using marksOf_map_mark (toCompact.filter fun m => m.block.numSamples == 0)
  · simp only [uploadsOf, List.filterMap_append] at *
    rw [hup, hdes]
    simp [uploadsOf]

/-- Witness for C2 at the concrete all-empty group `gZ`: both zero-sample
inputs are marked deletable, nothing is uploaded, and the call reports
`(true, nil, nil)`. -/
theorem compact_zero_result_ids_witness :
    envOk.compactBlocks (gZ.metasByMinTime.map fun m => m.block.ulid) = .ok [] ∧
    (gZ.compact envOk).1 = .ok (true, []) ∧
    marksOf (gZ.compact envOk).2 =
      [(1, "source of compacted block"), (3, "source of compacted block")] ∧
    uploadsOf (gZ.compact envOk).2 = [] := by
  have h := compact_zero_result_ids gZ envOk gZ.metasByMinTime
    (Or.inl rfl) rfl (by decide) rfl rfl rfl rfl rfl (fun _ => rfl)
  refine ⟨rfl, h.1, h.2.1.trans (by decide), h.2.2⟩

/-- C4: `AppendMeta(m)` returns an error unless `m`'s labels equal the
group's labels and `m`'s resolution equals the group's resolution; appending
preserves the invariant that every member matches the group, and under that
invariant any two members of one group agree on labels and resolution. -/
theorem appendMeta_group_invariant :
    (∀ (cg : Group) (m : Meta),
      (m.labels ≠ cg.labels ∨ m.resolution ≠ cg.resolution) →
        ∃ e, cg.AppendMeta m = .error e) ∧
    (∀ (cg : Group) (m : Meta) (cg2 : Group), cg.AppendMeta m = .ok cg2 →
      m.labels = cg.labels ∧ m.resolution = cg.resolution ∧
      (membersMatchGroup cg → membersMatchGroup cg2)) ∧
    (∀ cg : Group, membersMatchGroup cg →
      ∀ b1 ∈ cg.metasByMinTime, ∀ b2 ∈ cg.metasByMinTime,
        b1.labels = b2.labels ∧ b1.resolution = b2.resolution) := by
  refine ⟨?_, ?_, ?_⟩
  · intro cg m h
    unfold Group.AppendMeta
    by_cases hl : cg.labels = m.labels
    · have hr : cg.resolution ≠ m.resolution := by
        rcases h with h | h
        · exact absurd hl.symm h
        · exact fun hh => h hh.symm
      rw [if_neg (by simpa using hl), if_pos hr]
      exact ⟨_, rfl⟩
    · rw [if_pos hl]
      exact ⟨_, rfl⟩
  · intro cg m cg2 hok
    unfold Group.AppendMeta at hok
    by_cases hl : cg.labels ≠ m.labels
    · rw [if_pos hl] at hok
      cases hok
    · rw [if_neg hl] at hok
      by_cases hr : cg.resolution ≠ m.resolution
      · rw [if_pos hr] at hok
        cases hok
      · rw [if_neg hr] at hok
        have hl2 : m.labels = cg.labels := (not_ne_iff.mp hl).symm
        have hr2 : m.resolution = cg.resolution := (not_ne_iff.mp hr).symm
        refine ⟨hl2, hr2, ?_⟩
        intro hinv m2 hm2
        have hcg2 : cg2 = { cg with
            metasByMinTime := sortMetasByMinTime (cg.metasByMinTime ++ [m]) } := by
          cases hok
          rfl
        subst hcg2
        have hm2mem : m2 ∈ cg.metasByMinTime ++ [m] := by
          have := hm2
          simpa [sortMetasByMinTime, List.mem_insertionSort] using this
        rcases List.mem_append.mp hm2mem with h | h
        · exact hinv m2 h
        · have : m2 = m := by simpa using h
          subst this
          exact ⟨hl2, hr2⟩
  · intro cg hinv b1 h1 b2 h2
    have i1 := hinv b1 h1
    have i2 := hinv b2 h2
    exact ⟨i1.1.trans i2.1.symm, i1.2.trans i2.2.symm⟩

/-- Witness for C4: appending a label-mismatched meta to `gZ` fails, a
matching append succeeds, and the members of `gOv` pairwise agree on labels
and resolution. -/
theorem appendMeta_group_invariant_witness :
    (∃ e, gZ.AppendMeta mRes5m = .error e) ∧
    (∀ b1 ∈ gOv.metasByMinTime, ∀ b2 ∈ gOv.metasByMinTime,
      b1.labels = b2.labels ∧ b1.resolution = b2.resolution) := by
  refine ⟨appendMeta_group_invariant.1 gZ mRes5m (Or.inr (by decide)), ?_⟩
  exact appendMeta_group_invariant.2.2 gOv
    (by intro m hm; fin_cases hm <;> exact ⟨rfl, rfl⟩)

/-- Marks of a pure list of `"outdated block"` marker effects over ids. -/
theorem marksOf_map_markID (r : String) (ids : List ULID) :
    marksOf (ids.map fun id => Effect.markForDeletion id r) =
      ids.map (fun id => (id, r)) := by
  induction ids with
  | nil => rfl
  | cons id rest ih => simp [marksOf, List.filterMap_cons] at *; exact ih

/-- Characterization of the GC marking loop: the ids split into a successfully
marked prefix `g1` — marked in order with reason `"outdated block"` and
removed from the block map — and a remainder `rest`; the loop returns success
iff `rest` is empty, and otherwise aborts on `rest`'s head with a retryable
error wrapping the bucket failure. -/
theorem gcLoop_char (env : GCEnv) :
    ∀ (g : List ULID) (blocks : List (ULID × Meta)) (tr : List Effect),
    ∃ g1 rest, g = g1 ++ rest ∧
      (∀ id ∈ g1, env.markForDeletion id = none) ∧
      (gcLoop env g blocks tr).2.2 =
        tr ++ g1.map (fun id => Effect.markForDeletion id "outdated block") ∧
      (gcLoop env g blocks tr).2.1 =
        blocks.filter (fun kv => !(g1.contains kv.1)) ∧
      ((rest = [] ∧ (gcLoop env g blocks tr).1 = .ok ()) ∨
       (∃ id2 rest2 msg, rest = id2 :: rest2 ∧
         env.markForDeletion id2 = some msg ∧
         (gcLoop env g blocks tr).1 =
           .error (.retryE (.wrap ("mark block " ++ toString id2 ++ " for deletion")
             (.base msg))))) := by
  intro g
  induction g with
  | nil =>
    intro blocks tr
    refine ⟨[], [], rfl, by simp, by simp [gcLoop], by simp [gcLoop], Or.inl ⟨rfl, rfl⟩⟩
  | cons id rest0 ih =>
    intro blocks tr
    cases hm : env.markForDeletion id with
    | some msg =>
      refine ⟨[], id :: rest0, rfl, by simp, ?_, ?_, ?_⟩
      · simp [gcLoop, hm]
      · simp [gcLoop, hm]
      · exact Or.inr ⟨id, rest0, msg, rfl, hm, by simp [gcLoop, hm]; rfl⟩
    | none =>
      obtain ⟨g1, rest, hsplit, hmarks, htrace, hblocks, hres⟩ :=
        ih (blocks.filter fun kv => kv.1 != id)
          (tr ++ [Effect.markForDeletion id "outdated block"])
      have hstep : gcLoop env (id :: rest0) blocks tr =
          gcLoop env rest0 (blocks.filter fun kv => kv.1 != id)
            (tr ++ [Effect.markForDeletion id "outdated block"]) := by
        simp [gcLoop, hm]
      refine ⟨id :: g1, rest, by simp [hsplit], ?_, ?_, ?_, ?_⟩
      · intro id2 h2
        rcases List.mem_cons.mp h2 with rfl | h2
        · exact hm
        · exact hmarks id2 h2
      · rw [hstep, htrace]
        simp
      · rw [hstep, hblocks, List.filter_filter]
        apply List.filter_congr
        intro kv _
        by_cases h : kv.1 = id <;> by_cases h2 : kv.1 ∈ g1 <;> simp [h, h2]
      · rcases hres with ⟨h1, h2⟩ | ⟨id2, rest2, msg, h1, h2, h3⟩
        · exact Or.inl ⟨h1, by rw [hstep]; exact h2⟩
        · exact Or.inr ⟨id2, rest2, msg, h1, h2, by rw [hstep]; exact h3⟩

/-- C5: `GarbageCollect` writes `"outdated block"` deletion markers only for
ids reported by the duplicate filter that are not already deletion-marked;
when every marker write succeeds it marks exactly those ids and removes each
from the in-memory block map; a marked id never survives in the block map; and
any marker-write failure aborts the whole call with a retryable error. -/
theorem garbageCollect_spec (env : GCEnv) (blocks : List (ULID × Meta)) :
    (∀ idr ∈ marksOf (GarbageCollect env blocks).2.2,
      idr.2 = "outdated block" ∧ idr.1 ∈ env.duplicateIDs ∧
      idr.1 ∉ env.deletionMarkBlocks) ∧
    ((∀ id ∈ env.duplicateIDs, env.markForDeletion id = none) →
      (GarbageCollect env blocks).1 = .ok () ∧
      marksOf (GarbageCollect env blocks).2.2 =
        (env.duplicateIDs.filter fun id =>
          !(env.deletionMarkBlocks.contains id)).map (fun id => (id, "outdated block")) ∧
      (GarbageCollect env blocks).2.1 =
        blocks.filter (fun kv => !((env.duplicateIDs.filter fun id =>
          !(env.deletionMarkBlocks.contains id)).contains kv.1))) ∧
    (∀ idr ∈ marksOf (GarbageCollect env blocks).2.2,
      ∀ kv ∈ (GarbageCollect env blocks).2.1, kv.1 ≠ idr.1) ∧
    ((GarbageCollect env blocks).1 = .ok () ∨
      ∃ id msg, id ∈ env.duplicateIDs ∧ env.markForDeletion id = some msg ∧
        (GarbageCollect env blocks).1 =
          .error (.retryE (.wrap ("mark block " ++ toString id ++ " for deletion")
            (.base msg))) ∧
        IsRetryError (.retryE (.wrap ("mark block " ++ toString id ++ " for deletion")
          (.base msg))) = true) := by
  obtain ⟨g1, rest, hsplit, hmarks, htrace, hblocks, hres⟩ :=
    gcLoop_char env (env.duplicateIDs.filter fun id =>
      !(env.deletionMarkBlocks.contains id)) blocks []
  have hGC : GarbageCollect env blocks =
      gcLoop env (env.duplicateIDs.filter fun id =>
        !(env.deletionMarkBlocks.contains id)) blocks [] := rfl
  have hmarksOf : marksOf (GarbageCollect env blocks).2.2 =
      g1.map (fun id => (id, "outdated block")) := by
    rw [hGC, htrace]
    simpa using marksOf_map_markID "outdated block" g1
  have hg1sub : ∀ id ∈ g1, id ∈ env.duplicateIDs ∧ id ∉ env.deletionMarkBlocks := by
    intro id h
    have : id ∈ env.duplicateIDs.filter fun id =>
        !(env.deletionMarkBlocks.contains id) := by
      rw [hsplit]
      exact List.mem_append_left _ h
    have h2 := List.mem_filter.mp this
    refine ⟨h2.1, ?_⟩
    intro hmem
    have := h2.2
    simp at this
    exact this hmem
  refine ⟨?_, ?_, ?_, ?_⟩
  · intro idr hidr
    rw [hmarksOf] at hidr
    obtain ⟨id, hid, rfl⟩ := List.mem_map.mp hidr
    exact ⟨rfl, (hg1sub id hid).1, (hg1sub id hid).2⟩
  · intro hall
    have hrestnil : rest = [] := by
      rcases hres with ⟨h1, _⟩ | ⟨id2, rest2, msg, h1, h2, _⟩
      · exact h1
      · exfalso
        have : id2 ∈ env.duplicateIDs.filter fun id =>
            !(env.deletionMarkBlocks.contains id) := by
          rw [hsplit, h1]
          exact List.mem_append_right _ (List.mem_cons_self _ _)
        have := hall id2 (List.mem_filter.mp this).1
        rw [this] at h2
        cases h2
    have hg1 : g1 = env.duplicateIDs.filter fun id =>
        !(env.deletionMarkBlocks.contains id) := by
      rw [hsplit, hrestnil, List.append_nil]
    rcases hres with ⟨_, h2⟩ | ⟨id2, rest2, msg, h1, _, _⟩
    · refine ⟨by rw [hGC]; exact h2, by rw [hmarksOf, hg1], ?_⟩
      rw [hGC, hblocks, hg1]
    · rw [h1] at hrestnil
      cases hrestnil
  · intro idr hidr kv hkv
    rw [hmarksOf] at hidr
    obtain ⟨id, hid, rfl⟩ := List.mem_map.mp hidr
    rw [hGC, hblocks] at hkv
    have h2 := (List.mem_filter.mp hkv).2
    simp only at h2
    intro heq
    have hidg : kv.1 ∈ g1 := by
      rw [heq]
      exact hid
    simp [hidg] at h2
  · rcases hres with ⟨_, h2⟩ | ⟨id2, rest2, msg, h1, h2, h3⟩
    · exact Or.inl (by rw [hGC]; exact h2)
    · refine Or.inr ⟨id2, msg, ?_, h2, by rw [hGC]; exact h3, rfl⟩
      have : id2 ∈ env.duplicateIDs.filter fun id =>
          !(env.deletionMarkBlocks.contains id) := by
        rw [hsplit, h1]
        exact List.mem_append_right _ (List.mem_cons_self _ _)
      exact (List.mem_filter.mp this).1

/-- Witness for C5 at the concrete GC scenario: duplicates `{1, 2, 3}` with
`2` already marked; blocks `1` and `3` are marked and `1` is removed from the
block map, while the non-duplicate `4` survives. -/
theorem garbageCollect_spec_witness :
    (GarbageCollect gcEnvOk gcBlocks).1 = .ok () ∧
    marksOf (GarbageCollect gcEnvOk gcBlocks).2.2 =
      [(1, "outdated block"), (3, "outdated block")] ∧
    (GarbageCollect gcEnvOk gcBlocks).2.1 = [(4, m3w)] := by
  have h := (garbageCollect_spec gcEnvOk gcBlocks).2.1 (fun id _ => rfl)
  exact ⟨h.1, h.2.1.trans (by decide), h.2.2.trans (by decide)⟩

/-- Counterexample to C6 as stated: classification of a multi-error looks
only one level deep.  The member `multi [halt]` of the outer multi-error is
itself a halt error (`IsHaltError` = true), yet the outer multi-error is not,
because the member's cause is a multi-error, not a `HaltError`; dually for
retry errors. -/
theorem multiError_nested_counterexample :
    IsHaltError (Err.multi [Err.multi [Err.halt (.base "x")]]) = false ∧
    IsHaltError (Err.multi [Err.halt (.base "x")]) = true ∧
    IsRetryError (Err.multi [Err.multi [Err.retryE (.base "y")]]) = false ∧
    IsRetryError (Err.multi [Err.retryE (.base "y")]) = true :=
  ⟨rfl, rfl, rfl, rfl⟩

/-- C6 (amended): for every non-nil multi-error, `IsHaltError` is true iff at
least one member's cause — after unwrapping message wrappers, without
recursing into nested multi-errors — is a `HaltError`, and `IsRetryError` is
true iff every member's cause is a `RetryError`. -/
theorem multiError_classification (es : List Err) :
    (IsHaltError (.multi es) = true ↔ ∃ e ∈ es, causeIsHaltError e = true) ∧
    (IsRetryError (.multi es) = true ↔ ∀ e ∈ es, causeIsRetryError e = true) := by
  constructor
  · show (es.any causeIsHaltError = true) ↔ _
    exact List.any_eq_true
  · show (es.all causeIsRetryError = true) ↔ _
    exact List.all_eq_true

/-- Witness for C6 (amended) at concrete multi-errors. -/
theorem multiError_classification_witness :
    IsHaltError (Err.multi [Err.base "a", Err.wrap "w" (Err.halt (.base "b"))]) = true ∧
    IsRetryError (Err.multi [Err.retryE (.base "a"),
      Err.wrap "w" (Err.retryE (.base "b"))]) = true := by
  constructor
  · exact (multiError_classification [Err.base "a",
      Err.wrap "w" (Err.halt (.base "b"))]).1.mpr
      ⟨Err.wrap "w" (Err.halt (.base "b")), by simp, rfl⟩
  · refine (multiError_classification [Err.retryE (.base "a"),
      Err.wrap "w" (Err.retryE (.base "b"))]).2.mpr ?_
    intro e he
    fin_cases he <;> rfl

/-- The cause of an error is never itself a message wrapper. -/
theorem errorsCause_not_wrap : ∀ (e : Err) (s : String) (e2 : Err),
    errorsCause e ≠ Err.wrap s e2
  | .wrap s3 e3, s, e2 => by
    simpa only [errorsCause] using errorsCause_not_wrap e3 s e2
  | .base s3, s, e2 => by intro h; cases h
  | .halt e3, s, e2 => by intro h; cases h
  | .retryE e3, s, e2 => by intro h; cases h
  | .issue347 e3 u, s, e2 => by intro h; cases h
  | .oooChunks e3 u, s, e2 => by intro h; cases h
  | .multi es3, s, e2 => by intro h; cases h

/-- C10: `retry` returns a halt error unchanged rather than wrapping it, so
wrapping as retryable never reclassifies a halt error as retryable, and no
error is both a halt error and a retry error. -/
theorem retry_never_reclassifies_halt :
    (∀ e : Err, IsHaltError e = true → retry e = e) ∧
    (∀ e : Err, IsHaltError e = true → IsRetryError e = false) ∧
    (∀ e : Err, IsHaltError e = true → IsRetryError (retry e) = false) := by
  have hdisj : ∀ e : Err, IsHaltError e = true → IsRetryError e = false := by
    intro e h
    unfold IsHaltError at h
    unfold IsRetryError
    cases hc : errorsCause e with
    | multi es =>
      rw [hc] at h
      obtain ⟨e0, he0, hhalt⟩ := List.any_eq_true.mp h
      by_contra hall
      have hall2 : es.all causeIsRetryError = true := by simpa using hall
      have hr := List.all_eq_true.mp hall2 e0 he0
      unfold causeIsRetryError at hr
      unfold causeIsHaltError at hhalt
      cases hc0 : errorsCause e0 with
      | halt e3 => rw [hc0] at hr; exact Bool.noConfusion hr
      | wrap s3 e3 => exact absurd hc0 (errorsCause_not_wrap e0 s3 e3)
      | base s3 => rw [hc0] at hhalt; exact Bool.noConfusion hhalt
      | retryE e3 => rw [hc0] at hhalt; exact Bool.noConfusion hhalt
      | issue347 e3 u => rw [hc0] at hhalt; exact Bool.noConfusion hhalt
      | oooChunks e3 u => rw [hc0] at hhalt; exact Bool.noConfusion hhalt
      | multi es3 => rw [hc0] at hhalt; exact Bool.noConfusion hhalt
    | halt e2 => rfl
    | base s => rw [hc] at h
    | wrap s e2 => exact absurd hc (errorsCause_not_wrap e s e2)
    | retryE e2 => rw [hc] at h; exact Bool.noConfusion h
    | issue347 e2 u => rw [hc] at h
    | oooChunks e2 u => rw [hc] at h
  have hid : ∀ e : Err, IsHaltError e = true → retry e = e := by
    intro e h
    unfold retry
    rw [h]
    rfl
  refine ⟨hid, hdisj, ?_⟩
  intro e h
  rw [hid e h]
  exact hdisj e h

/-- Witness for C10 at a concrete halt error. -/
theorem retry_never_reclassifies_halt_witness :
    IsHaltError (Err.halt (.base "x")) = true ∧
    retry (Err.halt (.base "x")) = Err.halt (.base "x") ∧
    IsRetryError (Err.halt (.base "x")) = false :=
  ⟨rfl, retry_never_reclassifies_halt.1 (Err.halt (.base "x")) rfl,
    retry_never_reclassifies_halt.2.1 (Err.halt (.base "x")) rfl⟩

/-- C7 (amended): `ProgressCalculate` simulates the planner against each
group's own meta list, not a copy — the planned metas are removed from the
group's `metasByMinTime` in place (and a synthetic combined meta is appended
only while the group stays non-empty).  In particular a group whose whole meta
list is planned in one round is left empty, so its `metasByMinTime` differs
from its state before the call. -/
theorem progressCalculate_consumes_group (env : ProgressEnv) (fuel : Nat) (g : Group)
    (h2 : 2 ≤ g.metasByMinTime.length)
    (hplan : env.plan g.metasByMinTime = .ok g.metasByMinTime) :
    CompactionProgressCalculate env (fuel + 1) [g] =
      .ok [{ g with metasByMinTime := [] }] ∧
    ({ g with metasByMinTime := [] }).metasByMinTime ≠ g.metasByMinTime := by
  have hlen : g.IDs.length = g.metasByMinTime.length := by
    unfold Group.IDs
    rw [(List.perm_insertionSort _ _).length_eq, List.length_map]
  have hne1 : ¬ (g.IDs.length = 1) := by
    rw [hlen]
    omega
  have hnonempty : g.metasByMinTime.isEmpty = false := by
    cases hm : g.metasByMinTime with
    | nil => rw [hm] at h2; simp at h2
    | cons a t => rfl
  have hfilter : (g.metasByMinTime.filter fun m =>
      !((g.metasByMinTime.map (·.block.ulid)).contains m.block.ulid)) = [] := by
    rw [List.filter_eq_nil_iff]
    intro m hm
    simp [List.mem_map_of_mem _ hm]
  have hdel : g.deleteFromGroup (g.metasByMinTime.map (·.block.ulid)) =
      { g with metasByMinTime := [] } := by
    unfold Group.deleteFromGroup
    rw [hfilter]
  have hsim : simulateGroup env (fuel + 1) g = .ok { g with metasByMinTime := [] } := by
    unfold simulateGroup
    rw [if_neg hne1, hplan]
    simp only [hnonempty, Bool.false_eq_true, if_false, hdel]
    rfl
  have hcalc : CompactionProgressCalculate env (fuel + 1) [g] =
      .ok [{ g with metasByMinTime := [] }] := by
    unfold CompactionProgressCalculate
    rw [hsim]
    rfl
  refine ⟨hcalc, ?_⟩
  intro h
  rw [← h] at h2
  simp at h2

/-- Counterexample to C7 as stated: `ProgressCalculate` on the concrete group
`gP` succeeds but leaves `gP.metasByMinTime` empty — it mutated the group's
meta list rather than simulating against a copy. -/
theorem progressCalculate_mutates_counterexample :
    CompactionProgressCalculate envP 1 [gP] = .ok [{ gP with metasByMinTime := [] }] ∧
    ({ gP with metasByMinTime := [] }).metasByMinTime ≠ gP.metasByMinTime :=
  ⟨rfl, by decide⟩

/-- Witness for C7 (amended) at `gP` with a larger fuel bound. -/
theorem progressCalculate_consumes_group_witness :
    2 ≤ gP.metasByMinTime.length ∧
    envP.plan gP.metasByMinTime = .ok gP.metasByMinTime ∧
    CompactionProgressCalculate envP 7 [gP] =
      .ok [{ gP with metasByMinTime := [] }] := by
  have h := progressCalculate_consumes_group envP 6 gP (by decide) rfl
  exact ⟨by decide, rfl, h.1⟩

/-- Lexicographic comparison is asymmetric. -/
theorem charListLT_asymm : ∀ as bs, charListLT as bs = true → charListLT bs as = false
  | [], [] => by intro h; cases h
  | [], b :: bs => by intro _; rfl
  | a :: as, [] => by intro h; cases h
  | a :: as, b :: bs => by
    intro h
    unfold charListLT at h ⊢
    by_cases h1 : a.toNat < b.toNat
    · rw [if_neg (by omega), if_pos h1]
    · rw [if_neg h1] at h
      by_cases h2 : b.toNat < a.toNat
      · rw [if_pos h2] at h
        cases h
      · rw [if_neg h2] at h
        rw [if_neg h2, if_neg h1]
        exact charListLT_asymm as bs h

/-- Negative transitivity of the lexicographic comparison. -/
theorem charListLT_negtrans : ∀ as bs cs, charListLT bs as = false →
    charListLT cs bs = false → charListLT cs as = false
  | [], bs, cs => by
    intro h1 h2
    cases cs with
    | nil => rfl
    | cons c cs2 => rfl
  | a :: as2, bs, cs => by
    intro h1 h2
    cases bs with
    | nil => exact Bool.noConfusion h1
    | cons b bs2 =>
      cases cs with
      | nil => exact Bool.noConfusion h2
      | cons c cs2 =>
        unfold charListLT at h1 h2 ⊢
        by_cases hba : b.toNat < a.toNat
        · rw [if_pos hba] at h1
          exact Bool.noConfusion h1
        · rw [if_neg hba] at h1
          by_cases hcb : c.toNat < b.toNat
          · rw [if_pos hcb] at h2
            exact Bool.noConfusion h2
          · rw [if_neg hcb] at h2
            by_cases hca : c.toNat < a.toNat
            · exact absurd hca (by omega)
            · rw [if_neg hca]
              by_cases hac : a.toNat < c.toNat
              · rw [if_pos hac]
              · rw [if_neg hac]
                have hab : ¬ (a.toNat < b.toNat) := by omega
                have hbc : ¬ (b.toNat < c.toNat) := by omega
                rw [if_neg hab] at h1
                rw [if_neg hbc] at h2
                exact charListLT_negtrans as2 bs2 cs2 h1 h2

instance : IsTotal Group groupKeyLE :=
  ⟨fun a b => by
    unfold groupKeyLE
    by_cases h : strLT b.key a.key = true
    · exact Or.inr (charListLT_asymm _ _ h)
    · exact Or.inl (by simpa using h)⟩

instance : IsTrans Group groupKeyLE :=
  ⟨fun _ _ _ h1 h2 => charListLT_negtrans _ _ _ h1 h2⟩

/-- Appending a meta never changes a group's key. -/
theorem appendMeta_key (cg : Group) (m : Meta) (cg2 : Group)
    (h : cg.AppendMeta m = .ok cg2) : cg2.key = cg.key := by
  unfold Group.AppendMeta at h
  split at h
  · cases h
  · split at h
    · cases h
    · cases h
      rfl

/-- The member list produced by `AppendMeta` is sorted by `minTime`. -/
theorem appendMeta_sorted (cg : Group) (m : Meta) (cg2 : Group)
    (h : cg.AppendMeta m = .ok cg2) :
    cg2.metasByMinTime.Pairwise metaMinTimeLE := by
  unfold Group.AppendMeta at h
  split at h
  · cases h
  · split at h
    · cases h
    · cases h
      exact List.sorted_insertionSort metaMinTimeLE _

/-- One `Groups` iteration either leaves the key list unchanged (the meta
joined an existing group) or appends the meta's fresh key at the end; every
group of the new accumulator is an old group or an `AppendMeta` result. -/
theorem updateGroups_char (gr : DefaultGrouper) (keyOf : Meta → String) (m : Meta) :
    ∀ acc acc2, updateGroups gr keyOf m acc = .ok acc2 →
    (acc2.map (·.key) = acc.map (·.key) ∨
      (acc2.map (·.key) = acc.map (·.key) ++ [keyOf m] ∧
        keyOf m ∉ acc.map (·.key))) ∧
    (∀ g ∈ acc2, g ∈ acc ∨ ∃ (g0 : Group) (m0 : Meta), g0.AppendMeta m0 = .ok g) := by
  intro acc
  induction acc with
  | nil =>
    intro acc2 h
    unfold updateGroups at h
    cases happ : (NewGroup (keyOf m) m.labels m.resolution
        gr.acceptMalformedIndex gr.enableVerticalCompaction).AppendMeta m with
    | error e => rw [happ] at h; cases h
    | ok g =>
      rw [happ] at h
      cases h
      have hkey : g.key = keyOf m := appendMeta_key _ _ _ happ
      refine ⟨Or.inr ⟨by simp [hkey], by simp⟩, ?_⟩
      intro g2 hg2
      rcases List.mem_singleton.mp hg2 with rfl
      exact Or.inr ⟨_, m, happ⟩
  | cons g gs ih =>
    intro acc2 h
    unfold updateGroups at h
    by_cases hk : g.key = keyOf m
    · rw [if_pos hk] at h
      cases happ : g.AppendMeta m with
      | error e => rw [happ] at h; cases h
      | ok g2 =>
        rw [happ] at h
        cases h
        have hkey : g2.key = g.key := appendMeta_key _ _ _ happ
        refine ⟨Or.inl (by simp [hkey]), ?_⟩
        intro g3 hg3
        rcases List.mem_cons.mp hg3 with rfl | hg3
        · exact Or.inr ⟨_, m, happ⟩
        · exact Or.inl (List.mem_cons_of_mem _ hg3)
    · rw [if_neg hk] at h
      cases hrec : updateGroups gr keyOf m gs with
      | error e => rw [hrec] at h; cases h
      | ok gs2 =>
        rw [hrec] at h
        cases h
        obtain ⟨hkeys, hmem⟩ := ih gs2 hrec
        refine ⟨?_, ?_⟩
        · rcases hkeys with h1 | ⟨h1, h2⟩
          · exact Or.inl (by simp [h1])
          · refine Or.inr ⟨by simp [h1], ?_⟩
            intro hmem2
            rcases List.mem_cons.mp hmem2 with heq | hmem3
            · exact hk heq.symm
            · exact h2 hmem3
        · intro g3 hg3
          rcases List.mem_cons.mp hg3 with rfl | hg3
          · exact Or.inl (List.mem_cons_self _ _)
          · rcases hmem g3 hg3 with h1 | h1
            · exact Or.inl (List.mem_cons_of_mem _ h1)
            · exact Or.inr h1

/-- The `Groups` loop preserves distinctness of group keys and sortedness of
every group's member list. -/
theorem groupsLoop_invariant (gr : DefaultGrouper) (keyOf : Meta → String) :
    ∀ (blocks : List Meta) (acc res : List Group),
    groupsLoop gr keyOf blocks acc = .ok res →
    ((acc.map (·.key)).Nodup → (res.map (·.key)).Nodup) ∧
    ((∀ g ∈ acc, g.metasByMinTime.Pairwise metaMinTimeLE) →
      ∀ g ∈ res, g.metasByMinTime.Pairwise metaMinTimeLE) := by
  intro blocks
  induction blocks with
  | nil =>
    intro acc res h
    unfold groupsLoop at h
    cases h
    exact ⟨id, id⟩
  | cons m rest ih =>
    intro acc res h
    unfold groupsLoop at h
    cases hupd : updateGroups gr keyOf m acc with
    | error e => rw [hupd] at h; cases h
    | ok acc2 =>
      rw [hupd] at h
      obtain ⟨hkeys, hmem⟩ := updateGroups_char gr keyOf m acc acc2 hupd
      obtain ⟨ihk, ihs⟩ := ih acc2 res h
      refine ⟨?_, ?_⟩
      · intro hnd
        apply ihk
        rcases hkeys with h1 | ⟨h1, h2⟩
        · rw [h1]; exact hnd
        · rw [h1]
          have : (acc.map (·.key) ++ [keyOf m]).Perm (keyOf m :: acc.map (·.key)) :=
            List.perm_append_singleton _ _
          rw [this.nodup_iff]
          exact List.nodup_cons.mpr ⟨h2, hnd⟩
      · intro hst
        apply ihs
        intro g hg
        rcases hmem g hg with h1 | ⟨g0, m0, h1⟩
        · exact hst g h1
        · exact appendMeta_sorted g0 m0 g h1

/-- C8 (amended): `DefaultGrouper.Groups` returns the groups sorted strictly
ascending by group key (keys are pairwise distinct), and within every returned
group `metasByMinTime` is sorted ascending by `minTime`.  Ties in `minTime`
keep the order in which the metas were appended (Go map iteration order), not
the `BlockID` order. -/
theorem groups_sorted_by_key_and_minTime (gr : DefaultGrouper) (keyOf : Meta → String)
    (blocks : List Meta) (gs : List Group) (h : gr.Groups keyOf blocks = .ok gs) :
    gs.Pairwise (fun a b => strLT b.key a.key = false ∧ a.key ≠ b.key) ∧
    ∀ g ∈ gs, g.metasByMinTime.Pairwise metaMinTimeLE := by
  unfold DefaultGrouper.Groups at h
  cases hloop : groupsLoop gr keyOf blocks [] with
  | error e => rw [hloop] at h; cases h
  | ok res =>
    rw [hloop] at h
    cases h
    obtain ⟨hkeys, hsorted⟩ := groupsLoop_invariant gr keyOf blocks [] res hloop
    have hnd : (res.map (·.key)).Nodup := hkeys (by simp)
    have hperm : (List.insertionSort groupKeyLE res).Perm res :=
      List.perm_insertionSort groupKeyLE res
    have hndSorted : ((List.insertionSort groupKeyLE res).map (·.key)).Nodup := by
      rw [(hperm.map (·.key)).nodup_iff]
      exact hnd
    have hpw1 : (List.insertionSort groupKeyLE res).Pairwise groupKeyLE :=
      List.sorted_insertionSort groupKeyLE res
    have hpw2 : (List.insertionSort groupKeyLE res).Pairwise
        (fun a b => a.key ≠ b.key) :=
      (List.pairwise_map).mp hndSorted
    refine ⟨?_, ?_⟩
    · have := hpw1.and hpw2
      exact this.imp (fun h => ⟨h.1, h.2⟩)
    · intro g hg
      exact hsorted (by simp) g ((List.mem_insertionSort groupKeyLE).mp hg)

/-- Counterexample to C8 as stated: presenting the two equal-`minTime` metas
in the map iteration order `[mTieB, mTieA]` yields a group whose
`metasByMinTime` is `[mTieB, mTieA]` — the tie is not broken by `BlockID`
(`mTieB` has the larger id). -/
theorem groups_tie_not_by_blockID_counterexample :
    grC.Groups keyC [mTieB, mTieA] = .ok [gTie] ∧
    gTie.metasByMinTime = [mTieB, mTieA] ∧
    mTieB.block.minTime = mTieA.block.minTime ∧
    mTieA.block.ulid < mTieB.block.ulid ∧
    ¬ gTie.metasByMinTime.Pairwise (fun a b =>
      a.block.minTime < b.block.minTime ∨
      (a.block.minTime = b.block.minTime ∧ a.block.ulid ≤ b.block.ulid)) := by
  refine ⟨rfl, rfl, rfl, by decide, ?_⟩
  intro h
  have := (List.pairwise_cons.mp h).1 mTieA (List.mem_singleton.mpr rfl)
  rcases this with h1 | ⟨h1, h2⟩
  · exact absurd h1 (by decide)
  · exact absurd h2 (by decide)

/-- Witness for C8 (amended): two groups with distinct keys come back in
ascending key order, each internally sorted by `minTime`. -/
theorem groups_sorted_by_key_and_minTime_witness :
    (∃ gs, grC.Groups keyW [mRes5m, m3w, m1w] = .ok gs ∧
      gs.map (·.key) = ["0@h", "300000@h"] ∧
      gs.Pairwise (fun a b => strLT b.key a.key = false ∧ a.key ≠ b.key) ∧
      ∀ g ∈ gs, g.metasByMinTime.Pairwise metaMinTimeLE) := by
  have hrun : grC.Groups keyW [mRes5m, m3w, m1w] = .ok
      [{ key := "0@h", labels := lblsA, resolution := 0,
         metasByMinTime := [m1w, m3w],
         acceptMalformedIndex := false, enableVerticalCompaction := false },
       { key := "300000@h", labels := lblsA, resolution := 300000,
         metasByMinTime := [mRes5m],
         acceptMalformedIndex := false, enableVerticalCompaction := false }] := rfl
  obtain ⟨h1, h2⟩ := groups_sorted_by_key_and_minTime grC keyW [mRes5m, m3w, m1w] _ hrun
  exact ⟨_, hrun, rfl, h1, h2⟩

/-- C9 (amended): the retention calculator counts a block iff its resolution's
retention duration is non-zero and `now` is strictly later than the block's
`maxTime` — truncated from milliseconds down to whole seconds — plus the
retention duration; the calculator's gauge is the number of such blocks.  (A
retention duration of zero means the block is never counted.) -/
theorem retention_counted_iff (rbr : List (Int × Int)) (now : Int) :
    (∀ m : Meta, retentionBlockCounted rbr now m = true ↔
      (lookupRetention rbr m.resolution ≠ 0 ∧
        now - (Int.tdiv m.block.maxTime 1000) * 1000000000 >
          lookupRetention rbr m.resolution)) ∧
    (∀ gs : List Group, RetentionProgressCalculate rbr now gs =
      (gs.map fun g => (g.metasByMinTime.filter fun m =>
        decide (lookupRetention rbr m.resolution ≠ 0 ∧
          now - (Int.tdiv m.block.maxTime 1000) * 1000000000 >
            lookupRetention rbr m.resolution)).length).sum) := by
  have hpt : ∀ m : Meta, retentionBlockCounted rbr now m =
      decide (lookupRetention rbr m.resolution ≠ 0 ∧
        now - (Int.tdiv m.block.maxTime 1000) * 1000000000 >
          lookupRetention rbr m.resolution) := by
    intro m
    unfold retentionBlockCounted
    by_cases h : lookupRetention rbr m.resolution = 0
    · rw [if_pos h]
      simp [h]
    · rw [if_neg h, decide_eq_decide]
      constructor
      · intro hh
        exact ⟨h, by omega⟩
      · intro hh
        omega
  refine ⟨?_, ?_⟩
  · intro m
    rw [hpt m]
    exact decide_eq_true_iff
  · intro gs
    unfold RetentionProgressCalculate
    have hfun : retentionBlockCounted rbr now = fun m =>
        decide (lookupRetention rbr m.resolution ≠ 0 ∧
          now - (Int.tdiv m.block.maxTime 1000) * 1000000000 >
            lookupRetention rbr m.resolution) := funext hpt
    rw [hfun]

/-- Counterexample to C9 as stated: for the raw block `mR` with one-hour
retention, at the instant `now - maxTime` equals the retention exactly the
claim's condition `now - maxTime ≥ retention > 0` holds, yet the calculator
does not count the block — the code's `time.Now().After(...)` comparison is
strict. -/
theorem retention_boundary_counterexample :
    lookupRetention rbr0 mR.resolution = 3600000000000 ∧
    (0 : Int) < 3600000000000 ∧
    (3600000000000 : Int) - mR.block.maxTime * 1000000 ≥ 3600000000000 ∧
    retentionBlockCounted rbr0 3600000000000 mR = false ∧
    RetentionProgressCalculate rbr0 3600000000000 [gR] = 0 := by
  refine ⟨rfl, by decide, by decide, rfl, rfl⟩

/-- Witness for C9 (amended): one nanosecond past the boundary the block is
counted, at the boundary it is not. -/
theorem retention_counted_iff_witness :
    retentionBlockCounted rbr0 3600000000001 mR = true ∧
    retentionBlockCounted rbr0 3600000000000 mR = false := by
  constructor
  · exact ((retention_counted_iff rbr0 3600000000001).1 mR).mpr
      ⟨by decide, by decide⟩
  · have h := (retention_counted_iff rbr0 3600000000000).1 mR
    by_contra hc
    have : retentionBlockCounted rbr0 3600000000000 mR = true := by
      simpa using hc
    have h2 := h.mp this
    exact absurd h2.2 (by decide)

end ThanosCompact
